import Mathlib

/-!
Verification of the tracefs control-plane library (`tracefs.go`).

The development shallowly embeds the library's data model and operations:

* `Instance`, `RootInstance`, `ChildInstances`, `NewInstance`, `Destroy`
  (instance model, with an explicit filesystem collaborator `Fs` and a
  trace of the filesystem operations each call performs);
* `Instance.readFile`, `Instance.On`, `Instance.CurrentTracer`
  (tracer control);
* `UprobeEvent`, `UprobeEvent.Rule`, `Instance.UprobeEnablePath`,
  `Instance.EnableUprobe`, `Instance.DisableUprobe`,
  `Instance.AddUprobeEvent` (uprobe rule protocol).

Paths are joined by `goJoin`, which models Go's `filepath.Join` for paths
free of `.` and `..` segments: empty components are dropped, the rest are
joined with `/`, and runs of repeated separators are collapsed (the part
of `filepath.Clean` that is relevant to such paths).
-/

/-! ### String basics -/

theorem sdata_append (a b : String) : (a ++ b).data = a.data ++ b.data := by
  cases a; cases b; rfl

theorem smk_data (s : String) : String.mk s.data = s := by
  cases s; rfl

theorem sext {a b : String} (h : a.data = b.data) : a = b := by
  cases a; cases b; exact congrArg String.mk h

theorem sappend_assoc (a b c : String) : a ++ b ++ c = a ++ (b ++ c) := by
  apply sext; simp [sdata_append]

theorem sappend_empty (a : String) : a ++ "" = a := by
  apply sext; simp [sdata_append]

theorem sempty_append (a : String) : "" ++ a = a := by
  apply sext; simp [sdata_append]

/-- Concatenation of a list of strings. -/
def joinAll : List String → String
  | [] => ""
  | s :: rest => s ++ joinAll rest

/-- Strings joined with a separator between consecutive elements. -/
def joinSep (sep : String) : List String → String
  | [] => ""
  | [a] => a
  | a :: b :: t => a ++ sep ++ joinSep sep (b :: t)

/-! ### Path joining (model of Go filepath.Join) -/

/-- Collapse every run of repeated path separators to a single one. -/
def collapseSlashes : List Char → List Char
  | [] => []
  | [c] => [c]
  | a :: b :: t =>
    if a = '/' ∧ b = '/' then collapseSlashes (b :: t)
    else a :: collapseSlashes (b :: t)

/-- Whether the character list contains two adjacent separators. -/
def hasDoubleSlash : List Char → Bool
  | [] => false
  | [_] => false
  | a :: b :: t => (a = '/' && b = '/') || hasDoubleSlash (b :: t)

theorem collapseSlashes_of_clean :
    ∀ l : List Char, hasDoubleSlash l = false → collapseSlashes l = l := by
  intro l
  induction l with
  | nil => intro _; rfl
  | cons a t ih =>
    cases t with
    | nil => intro _; rfl
    | cons b t2 =>
      intro h
      simp only [hasDoubleSlash, Bool.or_eq_false_iff, Bool.and_eq_false_iff,
        decide_eq_false_iff_not] at h
      simp only [collapseSlashes]
      rw [if_neg, ih h.2]
      intro hc
      rcases h.1 with h1 | h1 <;> simp [hc.1, hc.2] at h1

/-- Model of Go `filepath.Join` for paths without `.` or `..` segments:
empty components are dropped, the rest joined with `/`, and repeated
separators collapsed (as `filepath.Clean` would). -/
def goJoin (parts : List String) : String :=
  String.mk (collapseSlashes (joinSep "/" (parts.filter (fun s => s ≠ ""))).data)

/-! ### Hexadecimal rendering (model of fmt %016x on a uint64) -/

/-- Lowercase hexadecimal digit character. -/
def hexDigitChar : Nat → Char
  | 0 => '0' | 1 => '1' | 2 => '2' | 3 => '3'
  | 4 => '4' | 5 => '5' | 6 => '6' | 7 => '7'
  | 8 => '8' | 9 => '9' | 10 => 'a' | 11 => 'b'
  | 12 => 'c' | 13 => 'd' | 14 => 'e' | 15 => 'f'
  | _ => '0'

/-- Model of Go `fmt.Sprintf("%016x", n)` for a `uint64` value: the 16
hexadecimal digits of `n`, most significant first, in lowercase, with
leading zeros. -/
def toHex16 (n : Nat) : String :=
  String.mk ((List.range 16).map (fun i => hexDigitChar (n / 16 ^ (15 - i) % 16)))

/-- Lowercase hexadecimal digit predicate. -/
def isLowerHexDigit (c : Char) : Bool :=
  ('0' ≤ c && c ≤ '9') || ('a' ≤ c && c ≤ 'f')

theorem toHex16_length (n : Nat) : (toHex16 n).length = 16 := by
  simp [toHex16, String.length]

theorem hexDigitChar_isHex (m : Nat) : isLowerHexDigit (hexDigitChar (m % 16)) = true := by
  have h : m % 16 < 16 := Nat.mod_lt _ (by decide)
  revert h
  have : ∀ k, k < 16 → isLowerHexDigit (hexDigitChar k) = true := by decide
  exact this (m % 16)

theorem toHex16_all_hex (n : Nat) : (toHex16 n).data.all isLowerHexDigit = true := by
  simp only [toHex16, List.all_eq_true, List.mem_map, List.mem_range]
  rintro c ⟨i, -, rfl⟩
  exact hexDigitChar_isHex _

theorem hexDigitChar_ne_space (m : Nat) : hexDigitChar (m % 16) ≠ ' ' := by
  have h : m % 16 < 16 := Nat.mod_lt _ (by decide)
  revert h
  have : ∀ k, k < 16 → hexDigitChar k ≠ ' ' := by decide
  exact this (m % 16)

/-! ### The uprobe event data model -/

/-- The FetchArg interface: the capabilities a fetch-argument value
provides.  `typeTag` models the `Type()` method and `str` the `String()`
method; only `str` is relevant to rule encoding. -/
structure FetchArg where
  typeTag : String
  str : String
deriving DecidableEq

/-- A register-reference fetch argument: renders as the register name
verbatim. -/
def fetchRegister (register : String) : FetchArg :=
  { typeTag := "register", str := register }

/-- The UprobeEvent struct: `Offset` is the `uint64` field (values are
below `2 ^ 64`; `toHex16` only ever reads the low 64 bits). -/
structure UprobeEvent where
  ReturnProbe : Bool
  Group : String
  Event : String
  Path : String
  Offset : Nat
  FetchArgs : List FetchArg
deriving DecidableEq

/-- The rule encoder `UprobeEvent.Rule`: builds the single
`uprobe_events` grammar line for the event, exactly as the Go method
assembles it in a `strings.Builder`. -/
def UprobeEvent.Rule (e : UprobeEvent) : String :=
  let typ := if e.ReturnProbe then "r" else "p"
  let withNaming :=
    if e.Group ≠ "" ∧ e.Event ≠ "" then typ ++ ":" ++ e.Group ++ "/" ++ e.Event
    else if e.Event ≠ "" then typ ++ ":" ++ e.Event
    else typ
  let withTarget := withNaming ++ " " ++ e.Path ++ ":0x" ++ toHex16 e.Offset
  e.FetchArgs.foldl (fun acc arg => acc ++ " " ++ arg.str) withTarget

/-! ### The instance model -/

/-- The Instance struct: a lightweight descriptor of a tracing instance
(root flag, filesystem path, display name). -/
structure Instance where
  isRoot : Bool
  path : String
  name : String
deriving DecidableEq

/-- The fixed mount path of the root tracing instance. -/
def rootPath : String := "/sys/kernel/tracing"

/-- `RootInstance`: pure constructor of a root-flagged instance. -/
def RootInstance (path : String) : Instance :=
  { isRoot := true, name := "*Default*", path := path }

/-- The process-wide default (root) instance. -/
def DefaultInstance : Instance := RootInstance rootPath

/-- A filesystem operation, recorded in the trace an instance-model call
returns so that "no filesystem access" is expressible. -/
inductive FSOp where
  | readDirOp (path : String)
  | mkdirOp (path : String)
  | removeOp (path : String)
deriving DecidableEq

/-- The filesystem collaborator: raw directory listing, directory
creation, removal and whole-file read, each of which may fail with an
OS error (modelled as its message). -/
structure Fs where
  readDir : String → Except String (List String)
  mkdir : String → Except String Unit
  remove : String → Except String Unit
  readF : String → Except String String

/-- `Instance.ChildInstances`: rejects non-root instances before any
filesystem access, otherwise lists the `instances` subdirectory and
returns one non-root child descriptor per entry.  The second component
is the trace of filesystem operations performed. -/
def Instance.ChildInstances (i : Instance) (fs : Fs) :
    Except String (List Instance) × List FSOp :=
  if !i.isRoot then
    (.error "Cannot get ChildInstances for non-root instance", [])
  else
    let instanceDir := goJoin [i.path, "instances"]
    match fs.readDir instanceDir with
    | .error e => (.error e, [.readDirOp instanceDir])
    | .ok entries =>
      (.ok (entries.map (fun nm =>
        { isRoot := false, path := goJoin [instanceDir, nm], name := nm })),
       [.readDirOp instanceDir])

/-- `Instance.NewInstance`: rejects non-root instances before any
filesystem access, otherwise creates `instances/<name>` and returns the
non-root child descriptor. -/
def Instance.NewInstance (i : Instance) (fs : Fs) (name : String) :
    Except String Instance × List FSOp :=
  if !i.isRoot then
    (.error "must be called on a root instance", [])
  else
    let childPath := goJoin [i.path, "instances", name]
    match fs.mkdir childPath with
    | .error e => (.error e, [.mkdirOp childPath])
    | .ok _ =>
      (.ok { isRoot := false, path := childPath, name := name },
       [.mkdirOp childPath])

/-- `Instance.Destroy`: rejects the root instance before any filesystem
access, otherwise removes the instance's backing directory. -/
def Instance.Destroy (i : Instance) (fs : Fs) :
    Except String Unit × List FSOp :=
  if i.isRoot then
    (.error "cannot destroy the root tracer instance", [])
  else
    (fs.remove i.path, [.removeOp i.path])

/-! ### Control-node reads (readFile, On, CurrentTracer) -/

/-- ASCII whitespace, as `bytes.TrimSpace` treats ASCII bytes. -/
def isASCIISpace (c : Char) : Bool :=
  c = ' ' || c = '\t' || c = '\n' || c = '\x0b' || c = '\x0c' || c = '\r'

/-- Trim on character lists: drop leading and trailing whitespace. -/
def trimChars (l : List Char) : List Char :=
  ((l.dropWhile isASCIISpace).reverse.dropWhile isASCIISpace).reverse

/-- Model of `bytes.TrimSpace` on ASCII text: the content with leading
and trailing whitespace removed. -/
def trimSpace (s : String) : String :=
  String.mk (trimChars s.data)

def curTracerPath : String := "current_tracer"

def tracingOnPath : String := "tracing_on"

/-- `Instance.readFile`: reads the control node `<path>/<name>` through
the collaborator and trims surrounding whitespace; a read failure is
propagated unmodified. -/
def Instance.readFile (i : Instance) (fs : Fs) (name : String) :
    Except String String :=
  match fs.readF (goJoin [i.path, name]) with
  | .error e => .error e
  | .ok data => .ok (trimSpace data)

/-- `Instance.On`: reads `tracing_on`; `"0"` maps to `false`, `"1"` to
`true`, anything else to an "unknown on value" error. -/
def Instance.On (i : Instance) (fs : Fs) : Except String Bool :=
  match i.readFile fs tracingOnPath with
  | .error e => .error e
  | .ok result =>
    if result = "0" then .ok false
    else if result = "1" then .ok true
    else .error ("unknown on value: " ++ result)

/-- `Instance.CurrentTracer`: reads `current_tracer` (trimmed) and
returns it as the tracer value. -/
def Instance.CurrentTracer (i : Instance) (fs : Fs) : Except String String :=
  match i.readFile fs curTracerPath with
  | .error e => .error e
  | .ok tracer => .ok tracer

/-! ### Control-node writes and the uprobe enable path -/

/-- A whole-file write: target path, payload and permission bits. -/
structure WriteOp where
  path : String
  data : String
  perm : Nat
deriving DecidableEq

/-- `Instance.writeFile`: writes `b` to `<path>/<name>` with mode 0777;
returns the write it performs. -/
def Instance.writeFile (i : Instance) (name b : String) : WriteOp :=
  { path := goJoin [i.path, name], data := b, perm := 0o777 }

/-- `Instance.UprobeEnablePath`: derives the enable-control node for an
event: `events/<Group>/<Event>/enable` when both are set,
`events/uprobes/<Event>/enable` when only the event is set, and the bulk
switch `events/uprobes/enable` otherwise. -/
def Instance.UprobeEnablePath (i : Instance) (e : UprobeEvent) : String :=
  if e.Group ≠ "" ∧ e.Event ≠ "" then
    goJoin [i.path, "events", e.Group, e.Event, "enable"]
  else if e.Event ≠ "" then
    goJoin [i.path, "events", "uprobes", e.Event, "enable"]
  else
    goJoin [i.path, "events", "uprobes", "enable"]

/-- `Instance.EnableUprobe`: writes `"1"` via `writeFile`, passing the
already-absolute `UprobeEnablePath` as the `name` argument (which
`writeFile` joins onto the instance path again). -/
def Instance.EnableUprobe (i : Instance) (e : UprobeEvent) : WriteOp :=
  i.writeFile (i.UprobeEnablePath e) "1"

/-- `Instance.DisableUprobe`: writes `"0"` via `writeFile`, passing the
already-absolute `UprobeEnablePath` as the `name` argument. -/
def Instance.DisableUprobe (i : Instance) (e : UprobeEvent) : WriteOp :=
  i.writeFile (i.UprobeEnablePath e) "0"

/-! ### Appending a uprobe rule -/

/-- Linux open(2) flag bits, as Go's `os` package exposes them. -/
def O_WRONLY : Nat := 0o1

def O_CREATE : Nat := 0o100

def O_APPEND : Nat := 0o2000

/-- Whether a flag bit is set in an open-flags word. -/
def hasFlag (flags flag : Nat) : Bool := flags &&& flag ≠ 0

/-- An append-open plus write: target path, open flags, permission bits
for creation, and the payload written. -/
structure AppendOp where
  path : String
  flags : Nat
  perm : Nat
  data : String
deriving DecidableEq

/-- `Instance.AddUprobeEvent`: opens `<path>/uprobe_events` with
`O_APPEND|O_CREATE|O_WRONLY` and mode 0644 and writes the rule line plus
a trailing newline (`fmt.Fprintln`). -/
def Instance.AddUprobeEvent (i : Instance) (e : UprobeEvent) : AppendOp :=
  { path := goJoin [i.path, "uprobe_events"]
  , flags := O_APPEND ||| O_CREATE ||| O_WRONLY
  , perm := 0o644
  , data := e.Rule ++ "\n" }

/-- Model of the collaborator's open call (POSIX `open(2)`) on a file
that may or may not exist: with the create flag set, opening a missing
file succeeds and creates it with the given permission bits; without it,
a missing file yields a not-found error.  The payload records whether
the file was created and with which mode. -/
def openFileOutcome (fileExists : Bool) (flags perm : Nat) :
    Except String (Bool × Nat) :=
  if fileExists then .ok (false, perm)
  else if hasFlag flags O_CREATE then .ok (true, perm)
  else .error "no such file or directory"

/-! ### Path-shape lemmas -/

theorem goJoin_two (p b : String) (hp : p ≠ "") (hb : b ≠ "")
    (hclean : hasDoubleSlash (p ++ "/" ++ b).data = false) :
    goJoin [p, b] = p ++ "/" ++ b := by
  have hfil : [p, b].filter (fun s => s ≠ "") = [p, b] := by
    simp [List.filter, hp, hb]
  have hjs : joinSep "/" [p, b] = p ++ "/" ++ b := by
    simp only [joinSep]
  unfold goJoin
  rw [hfil, hjs, collapseSlashes_of_clean _ hclean, smk_data]

theorem goJoin_three (p b c : String) (hp : p ≠ "") (hb : b ≠ "") (hc : c ≠ "")
    (hclean : hasDoubleSlash (p ++ "/" ++ b ++ "/" ++ c).data = false) :
    goJoin [p, b, c] = p ++ "/" ++ b ++ "/" ++ c := by
  have hfil : [p, b, c].filter (fun s => s ≠ "") = [p, b, c] := by
    simp [List.filter, hp, hb, hc]
  have hjs : joinSep "/" [p, b, c] = p ++ "/" ++ b ++ "/" ++ c := by
    simp only [joinSep]
    apply sext
    simp [sdata_append, List.append_assoc]
  unfold goJoin
  rw [hfil, hjs, collapseSlashes_of_clean _ hclean, smk_data]

/-! ### Spec-side rendering of the rule grammar -/

/-- The probe-type string of the grammar: `r` for a return probe, `p`
otherwise. -/
def typeStr (r : Bool) : String := if r then "r" else "p"

/-- The probe-type character of the grammar. -/
def typeChar (r : Bool) : Char := if r then 'r' else 'p'

/-- The naming clause of the grammar, following the specification's
wording: emitted only when the event name is non-empty; with a group it
is `:<group>/<event>`, otherwise `:<event>`. -/
def namingClauseSpec (g ev : String) : String :=
  if ev = "" then ""
  else if g = "" then ":" ++ ev
  else ":" ++ g ++ "/" ++ ev

/-- Everything a rule line contains after the type/naming token: the
target token and the space-prefixed fetch arguments. -/
def ruleTail (e : UprobeEvent) : String :=
  " " ++ e.Path ++ ":0x" ++ toHex16 e.Offset
    ++ joinAll (e.FetchArgs.map (fun a => " " ++ a.str))

/-- The rule line as the specification phrases it: the type/naming
token, the `<path>:0x<offset>` token and the fetch-argument encodings,
space-separated in order. -/
def ruleSpecLine (e : UprobeEvent) : String :=
  joinSep " "
    ((typeStr e.ReturnProbe ++ namingClauseSpec e.Group e.Event)
      :: (e.Path ++ ":0x" ++ toHex16 e.Offset)
      :: e.FetchArgs.map FetchArg.str)

theorem typeStr_data (r : Bool) : (typeStr r).data = [typeChar r] := by
  cases r <;> rfl

theorem foldl_args (l : List FetchArg) :
    ∀ acc : String,
      l.foldl (fun a x => a ++ " " ++ x.str) acc
        = acc ++ joinAll (l.map (fun x => " " ++ x.str)) := by
  induction l with
  | nil => intro acc; simp [joinAll, sappend_empty]
  | cons x t ih =>
    intro acc
    simp only [List.foldl_cons, List.map_cons, joinAll]
    rw [ih]
    simp [sappend_assoc]

theorem joinSep_space (l : List String) :
    ∀ b : String,
      joinSep " " (b :: l) = b ++ joinAll (l.map (fun s => " " ++ s)) := by
  induction l with
  | nil => intro b; simp [joinSep, joinAll, sappend_empty]
  | cons c t ih =>
    intro b
    simp only [joinSep, List.map_cons, joinAll]
    rw [ih c]
    simp [sappend_assoc]

/-- Decomposition of the rule encoder into the grammar's three parts. -/
theorem rule_head (e : UprobeEvent) :
    e.Rule = (typeStr e.ReturnProbe ++ namingClauseSpec e.Group e.Event)
      ++ " " ++ (e.Path ++ ":0x" ++ toHex16 e.Offset)
      ++ joinAll (e.FetchArgs.map (fun a => " " ++ a.str)) := by
  unfold UprobeEvent.Rule namingClauseSpec
  rw [foldl_args]
  by_cases hg : e.Group = "" <;> by_cases he : e.Event = "" <;>
    (apply sext;
     simp [hg, he, typeStr, sdata_append, List.append_assoc])

/-! ### Parsing the rule grammar (round trip) -/

/-- Prepend a character to the first token of a token list. -/
def consTok (c : Char) : List (List Char) → List (List Char)
  | [] => [[c]]
  | t :: ts => (c :: t) :: ts

/-- Split a character list into tokens at every space (spaces are not
collapsed). -/
def splitSpaces : List Char → List (List Char)
  | [] => [[]]
  | c :: rest =>
    if c = ' ' then [] :: splitSpaces rest else consTok c (splitSpaces rest)

theorem splitSpaces_no_space (a : List Char) (ha : ' ' ∉ a) :
    splitSpaces a = [a] := by
  induction a with
  | nil => rfl
  | cons c t ih =>
    have hc : c ≠ ' ' := fun h => ha (h ▸ List.mem_cons_self c t)
    have ht : ' ' ∉ t := fun h => ha (List.mem_cons_of_mem c h)
    simp [splitSpaces, hc, ih ht, consTok]

theorem splitSpaces_append (a b : List Char) (ha : ' ' ∉ a) :
    splitSpaces (a ++ ' ' :: b) = a :: splitSpaces b := by
  induction a with
  | nil => simp [splitSpaces]
  | cons c t ih =>
    have hc : c ≠ ' ' := fun h => ha (h ▸ List.mem_cons_self c t)
    have ht : ' ' ∉ t := fun h => ha (List.mem_cons_of_mem c h)
    simp [splitSpaces, hc, ih ht, consTok]

/-- A parsed rule line: the probe-type character, the naming clause (the
characters after the type character, empty when absent), the binary
path, the 16 hexadecimal offset digits, and the remaining fetch-argument
tokens. -/
structure ParsedRule where
  typ : Char
  naming : String
  path : String
  offsetHex : String
  args : List String
deriving DecidableEq

/-- Parse the `<path>:0x<offset16>` token of the grammar: the final 19
characters must be `:0x` followed by 16 lowercase hexadecimal digits,
and everything before them is the path. -/
def parsePathOffset (tok : List Char) : Option (String × String) :=
  if 19 ≤ tok.length then
    if (tok.drop (tok.length - 19)).take 3 = [':', '0', 'x']
        ∧ ((tok.drop (tok.length - 19)).drop 3).length = 16
        ∧ ((tok.drop (tok.length - 19)).drop 3).all isLowerHexDigit = true then
      some (String.mk (tok.take (tok.length - 19)),
            String.mk ((tok.drop (tok.length - 19)).drop 3))
    else none
  else none

/-- Parser for the uprobe rule grammar of the specification: a type
character `p` or `r`, an optional naming clause introduced by `:`, a
space, the path/offset token, and space-separated fetch-argument
tokens. -/
def parseRule (line : String) : Option ParsedRule :=
  match splitSpaces line.data with
  | tok1 :: tok2 :: rest =>
    match tok1 with
    | [] => none
    | t :: naming =>
      if (t = 'p' ∨ t = 'r') ∧ (naming = [] ∨ naming.head? = some ':') then
        match parsePathOffset tok2 with
        | some (p, off) =>
          some { typ := t, naming := String.mk naming, path := p
               , offsetHex := off, args := rest.map String.mk }
        | none => none
      else none
  | _ => none

theorem toHex16_data_length (n : Nat) : (toHex16 n).data.length = 16 :=
  toHex16_length n

theorem parsePathOffset_target (path : String) (n : Nat) :
    parsePathOffset (path ++ ":0x" ++ toHex16 n).data = some (path, toHex16 n) := by
  have hdata : (path ++ ":0x" ++ toHex16 n).data
      = path.data ++ ':' :: '0' :: 'x' :: (toHex16 n).data := by
    simp [sdata_append]
  have hlen : (path.data ++ ':' :: '0' :: 'x' :: (toHex16 n).data).length
      = path.data.length + 19 := by
    simp only [List.length_append, List.length_cons, toHex16_data_length]
  unfold parsePathOffset
  rw [hdata, hlen]
  have hsub : path.data.length + 19 - 19 = path.data.length := by omega
  rw [if_pos (by omega), hsub, List.drop_left' rfl, List.take_left' rfl]
  rw [if_pos ⟨rfl, toHex16_data_length n, toHex16_all_hex n⟩]
  rw [smk_data]
  exact congrArg _ (congrArg _ (smk_data _))

theorem parseRule_cons (t : Char) (naming tok2 : List Char)
    (more : List (List Char)) (line : String)
    (hsplit : splitSpaces line.data = (t :: naming) :: tok2 :: more)
    (hcond : (t = 'p' ∨ t = 'r') ∧ (naming = [] ∨ naming.head? = some ':'))
    (p off : String) (hpo : parsePathOffset tok2 = some (p, off)) :
    parseRule line = some { typ := t, naming := String.mk naming, path := p
                          , offsetHex := off, args := more.map String.mk } := by
  unfold parseRule
  rw [hsplit]
  dsimp only
  rw [if_pos hcond, hpo]

/-! ### No-space facts about the grammar's tokens -/

theorem typeChar_cases (r : Bool) : typeChar r = 'p' ∨ typeChar r = 'r' := by
  cases r <;> simp [typeChar]

theorem typeChar_ne_space (r : Bool) : typeChar r ≠ ' ' := by
  cases r <;> decide

theorem naming_no_space (g ev : String) (hG : ' ' ∉ g.data) (hE : ' ' ∉ ev.data) :
    ' ' ∉ (namingClauseSpec g ev).data := by
  intro hmem
  unfold namingClauseSpec at hmem
  by_cases h1 : ev = ""
  · rw [if_pos h1] at hmem
    simp at hmem
  · rw [if_neg h1] at hmem
    by_cases h2 : g = ""
    · rw [if_pos h2, sdata_append] at hmem
      rcases List.mem_append.1 hmem with h | h
      · exact absurd h (by decide)
      · exact hE h
    · rw [if_neg h2] at hmem
      simp only [sdata_append] at hmem
      rcases List.mem_append.1 hmem with h | h
      · rcases List.mem_append.1 h with h3 | h3
        · rcases List.mem_append.1 h3 with h4 | h4
          · exact absurd h4 (by decide)
          · exact hG h4
        · exact absurd h3 (by decide)
      · exact hE h

theorem toHex16_no_space (n : Nat) : ' ' ∉ (toHex16 n).data := by
  intro hmem
  simp only [toHex16, List.mem_map, List.mem_range] at hmem
  obtain ⟨i, -, hi⟩ := hmem
  exact hexDigitChar_ne_space _ hi

theorem target_no_space (p : String) (n : Nat) (hP : ' ' ∉ p.data) :
    ' ' ∉ (p ++ ":0x" ++ toHex16 n).data := by
  intro hmem
  simp only [sdata_append] at hmem
  rcases List.mem_append.1 hmem with h | h
  · rcases List.mem_append.1 h with h2 | h2
    · exact hP h2
    · exact absurd h2 (by decide)
  · exact toHex16_no_space n h

theorem naming_starts (g ev : String) :
    (namingClauseSpec g ev).data = []
      ∨ (namingClauseSpec g ev).data.head? = some ':' := by
  unfold namingClauseSpec
  by_cases h1 : ev = ""
  · rw [if_pos h1]; left; rfl
  · rw [if_neg h1]
    by_cases h2 : g = ""
    · rw [if_pos h2, sdata_append]; right; rfl
    · rw [if_neg h2]; right
      simp only [sdata_append]
      rfl

/-! ### Tokenization of the rule line -/

theorem rule_data (e : UprobeEvent) :
    (e.Rule).data = (typeChar e.ReturnProbe :: (namingClauseSpec e.Group e.Event).data)
      ++ ' ' :: ((e.Path ++ ":0x" ++ toHex16 e.Offset).data
        ++ (joinAll (e.FetchArgs.map (fun a => " " ++ a.str))).data) := by
  rw [rule_head]
  simp [sdata_append, typeStr_data, List.append_assoc]

theorem head_no_space (e : UprobeEvent)
    (hG : ' ' ∉ e.Group.data) (hE : ' ' ∉ e.Event.data) :
    ' ' ∉ (typeChar e.ReturnProbe :: (namingClauseSpec e.Group e.Event).data) := by
  intro hmem
  rcases List.mem_cons.1 hmem with h | h
  · exact typeChar_ne_space _ h.symm
  · exact naming_no_space _ _ hG hE h

theorem rule_tokens (e : UprobeEvent)
    (hP : ' ' ∉ e.Path.data) (hG : ' ' ∉ e.Group.data) (hE : ' ' ∉ e.Event.data) :
    ∃ more, splitSpaces (e.Rule).data
      = (typeChar e.ReturnProbe :: (namingClauseSpec e.Group e.Event).data)
        :: (e.Path ++ ":0x" ++ toHex16 e.Offset).data :: more := by
  rw [rule_data]
  rcases ha : e.FetchArgs with _ | ⟨a, t⟩
  · refine ⟨[], ?_⟩
    simp only [ha, List.map_nil]
    have hj : (joinAll (([] : List String))).data = [] := rfl
    rw [show joinAll ([] : List String) = "" from rfl]
    rw [show ("" : String).data = [] from rfl, List.append_nil]
    rw [splitSpaces_append _ _ (head_no_space e hG hE)]
    rw [splitSpaces_no_space _ (target_no_space _ _ hP)]
  · refine ⟨splitSpaces (a.str.data
      ++ (joinAll (t.map (fun x => " " ++ x.str))).data), ?_⟩
    simp only [ha, List.map_cons, joinAll]
    have hj : ((" " ++ a.str) ++ joinAll (t.map (fun x => " " ++ x.str))).data
        = ' ' :: (a.str.data ++ (joinAll (t.map (fun x => " " ++ x.str))).data) := by
      simp [sdata_append]
    rw [hj]
    rw [splitSpaces_append _ _ (head_no_space e hG hE)]
    rw [splitSpaces_append _ _ (target_no_space _ _ hP)]

/-! ### Whitespace trimming lemmas -/

theorem dropWhile_append_all {p : Char → Bool} (w l : List Char)
    (hw : w.all p = true) : (w ++ l).dropWhile p = l.dropWhile p := by
  induction w with
  | nil => rfl
  | cons c t ih =>
    simp only [List.all_cons, Bool.and_eq_true] at hw
    simp only [List.cons_append, List.dropWhile_cons_of_pos hw.1]
    exact ih hw.2

theorem dropWhile_all_nil {p : Char → Bool} (w : List Char)
    (hw : w.all p = true) : w.dropWhile p = [] := by
  have h := dropWhile_append_all w [] hw
  simpa using h

theorem dropWhile_length_le (p : Char → Bool) (l : List Char) :
    (l.dropWhile p).length ≤ l.length := by
  induction l with
  | nil => simp
  | cons c t ih =>
    by_cases hc : p c = true
    · rw [List.dropWhile_cons_of_pos hc]
      exact Nat.le_trans ih (by simp)
    · rw [List.dropWhile_cons_of_neg hc]

theorem trim_sandwich (w1 w2 t : String)
    (h1 : w1.data.all isASCIISpace = true) (h2 : w2.data.all isASCIISpace = true)
    (ht1 : t.data.dropWhile isASCIISpace = t.data)
    (ht2 : t.data.reverse.dropWhile isASCIISpace = t.data.reverse) :
    trimSpace (w1 ++ t ++ w2) = t := by
  unfold trimSpace trimChars
  have hdata : (w1 ++ t ++ w2).data = w1.data ++ (t.data ++ w2.data) := by
    simp [sdata_append]
  rw [hdata, dropWhile_append_all _ _ h1]
  rcases hdt : t.data with _ | ⟨c, t2⟩
  · rw [List.nil_append, dropWhile_all_nil _ h2]
    simp only [List.reverse_nil, List.dropWhile_nil]
    exact sext hdt.symm
  · have hc : ¬ isASCIISpace c = true := by
      intro hcc
      have hx := ht1
      rw [hdt, List.dropWhile_cons_of_pos hcc] at hx
      have hlen := congrArg List.length hx
      have hle := dropWhile_length_le isASCIISpace t2
      simp only [List.length_cons] at hlen
      omega
    rw [List.cons_append, List.dropWhile_cons_of_neg hc, ← List.cons_append,
      ← hdt, List.reverse_append, dropWhile_append_all _ _ (by
        rw [List.all_eq_true]
        intro x hx
        rw [List.mem_reverse] at hx
        exact (List.all_eq_true.1 h2) x hx),
      ht2, List.reverse_reverse]

/-! ### Helper lemmas on control-node reads -/

theorem readFile_ok (i : Instance) (fs : Fs) (name s : String)
    (h : fs.readF (goJoin [i.path, name]) = .ok s) :
    i.readFile fs name = .ok (trimSpace s) := by
  unfold Instance.readFile
  rw [h]

theorem readFile_err (i : Instance) (fs : Fs) (name msg : String)
    (h : fs.readF (goJoin [i.path, name]) = .error msg) :
    i.readFile fs name = .error msg := by
  unfold Instance.readFile
  rw [h]

theorem on_of_readFile (i : Instance) (fs : Fs) (r : String)
    (h : i.readFile fs tracingOnPath = .ok r) :
    i.On fs = (if r = "0" then .ok false
      else if r = "1" then .ok true
      else .error ("unknown on value: " ++ r)) := by
  unfold Instance.On
  rw [h]

theorem on_of_readFile_err (i : Instance) (fs : Fs) (msg : String)
    (h : i.readFile fs tracingOnPath = .error msg) :
    i.On fs = .error msg := by
  unfold Instance.On
  rw [h]

theorem curTracer_of_readFile (i : Instance) (fs : Fs) (r : String)
    (h : i.readFile fs curTracerPath = .ok r) :
    i.CurrentTracer fs = .ok r := by
  unfold Instance.CurrentTracer
  rw [h]

/-- A filesystem on which every operation succeeds trivially. -/
def fsAllOk : Fs :=
  { readDir := fun _ => .ok [], mkdir := fun _ => .ok ()
  , remove := fun _ => .ok (), readF := fun _ => .ok "" }

/-- A filesystem whose reads all return the given content. -/
def fsConstRead (s : String) : Fs :=
  { readDir := fun _ => .ok [], mkdir := fun _ => .ok ()
  , remove := fun _ => .ok (), readF := fun _ => .ok s }

/-! ### Claim C1 -/

/-- C1: for every `UprobeEvent`, `Rule()` produces the single grammar
line consisting of the type token (`r` when `ReturnProbe`, else `p`,
with the naming clause), the `<Path>:0x<offset>` token whose offset is
exactly 16 lowercase hexadecimal digits with leading zeros, and each
fetch argument's encoding appended space-separated in order (nothing
extra for an empty `FetchArgs`). -/
theorem c1_rule_line_form (e : UprobeEvent) :
    e.Rule = ruleSpecLine e
      ∧ (toHex16 e.Offset).length = 16
      ∧ (toHex16 e.Offset).data.all isLowerHexDigit = true := by
  refine ⟨?_, toHex16_length _, toHex16_all_hex _⟩
  rw [rule_head]
  unfold ruleSpecLine
  rw [joinSep_space]
  rw [List.map_cons, List.map_map]
  rw [show ((fun s => " " ++ s) ∘ FetchArg.str) = (fun a : FetchArg => " " ++ a.str)
    from rfl]
  apply sext
  simp [sdata_append, List.append_assoc, joinAll]

/-! ### Claim C2 -/

/-- C2: the naming clause of `Rule()` is emitted only when `Event` is
non-empty: `:<Group>/<Event>` when both are non-empty, `:<Event>` when
only `Event` is, and nothing at all when `Event` is empty, regardless of
`Group`. -/
theorem c2_naming_clause_cases (e : UprobeEvent) :
    (e.Group ≠ "" → e.Event ≠ "" →
       e.Rule = typeStr e.ReturnProbe ++ ":" ++ e.Group ++ "/" ++ e.Event
         ++ ruleTail e)
    ∧ (e.Group = "" → e.Event ≠ "" →
       e.Rule = typeStr e.ReturnProbe ++ ":" ++ e.Event ++ ruleTail e)
    ∧ (e.Event = "" →
       e.Rule = typeStr e.ReturnProbe ++ ruleTail e) := by
  refine ⟨fun hg he => ?_, fun hg he => ?_, fun he => ?_⟩
  · rw [rule_head]
    unfold namingClauseSpec ruleTail
    rw [if_neg he, if_neg hg]
    apply sext
    simp [sdata_append, List.append_assoc]
  · rw [rule_head]
    unfold namingClauseSpec ruleTail
    rw [if_neg he, if_pos hg]
    apply sext
    simp [sdata_append, List.append_assoc]
  · rw [rule_head]
    unfold namingClauseSpec ruleTail
    rw [if_pos he]
    apply sext
    simp [sdata_append, List.append_assoc]

theorem c2_naming_clause_cases_witness :
    UprobeEvent.Rule ⟨false, "g", "e", "/bin/ls", 0, []⟩
      = typeStr false ++ ":" ++ "g" ++ "/" ++ "e"
        ++ ruleTail ⟨false, "g", "e", "/bin/ls", 0, []⟩ :=
  (c2_naming_clause_cases ⟨false, "g", "e", "/bin/ls", 0, []⟩).1
    (by decide) (by decide)

/-! ### Claim C3 -/

/-- C3 (bug evaluation): the three derivation cases of
`UprobeEnablePath` produce the documented control paths, but
`EnableUprobe`/`DisableUprobe` do not write to that derived path: they
pass the already-absolute path back through `writeFile`, which joins the
instance path onto it a second time, so the write goes to a path with
the instance prefix doubled. -/
theorem c3_enable_writes_doubled_path :
    DefaultInstance.UprobeEnablePath ⟨false, "g", "e", "/bin/true", 256, []⟩
        = "/sys/kernel/tracing/events/g/e/enable"
    ∧ DefaultInstance.UprobeEnablePath ⟨false, "", "e", "/bin/true", 256, []⟩
        = "/sys/kernel/tracing/events/uprobes/e/enable"
    ∧ DefaultInstance.UprobeEnablePath ⟨false, "", "", "/bin/true", 256, []⟩
        = "/sys/kernel/tracing/events/uprobes/enable"
    ∧ (DefaultInstance.EnableUprobe ⟨false, "", "", "/bin/true", 256, []⟩).data = "1"
    ∧ (DefaultInstance.DisableUprobe ⟨false, "", "", "/bin/true", 256, []⟩).data = "0"
    ∧ (DefaultInstance.EnableUprobe ⟨false, "", "", "/bin/true", 256, []⟩).path
        = "/sys/kernel/tracing/sys/kernel/tracing/events/uprobes/enable"
    ∧ (DefaultInstance.EnableUprobe ⟨false, "", "", "/bin/true", 256, []⟩).path
        ≠ DefaultInstance.UprobeEnablePath ⟨false, "", "", "/bin/true", 256, []⟩ := by
  decide

/-! ### Claim C4 -/

/-- C4: for every valid event (no spaces in path, group or event name),
encoding with `Rule()` and parsing the line back against the grammar
recovers the same type character, the same naming clause, the same path
and the same 16-hex-digit offset. -/
theorem c4_rule_roundtrip (e : UprobeEvent)
    (hP : ' ' ∉ e.Path.data) (hG : ' ' ∉ e.Group.data) (hE : ' ' ∉ e.Event.data) :
    ∃ args, parseRule e.Rule
      = some { typ := typeChar e.ReturnProbe
             , naming := namingClauseSpec e.Group e.Event
             , path := e.Path, offsetHex := toHex16 e.Offset, args := args } := by
  obtain ⟨more, hsplit⟩ := rule_tokens e hP hG hE
  refine ⟨more.map String.mk, ?_⟩
  have h := parseRule_cons (typeChar e.ReturnProbe)
      ((namingClauseSpec e.Group e.Event).data)
      ((e.Path ++ ":0x" ++ toHex16 e.Offset).data) more e.Rule hsplit
      ⟨typeChar_cases e.ReturnProbe, naming_starts e.Group e.Event⟩
      e.Path (toHex16 e.Offset) (parsePathOffset_target _ _)
  rw [h, smk_data]

theorem c4_rule_roundtrip_witness :
    ∃ args, parseRule (UprobeEvent.Rule
        ⟨true, "grp", "evt", "/bin/true", 256, [fetchRegister "%ax"]⟩)
      = some { typ := typeChar true
             , naming := namingClauseSpec "grp" "evt"
             , path := "/bin/true", offsetHex := toHex16 256, args := args } :=
  c4_rule_roundtrip ⟨true, "grp", "evt", "/bin/true", 256, [fetchRegister "%ax"]⟩
    (by decide) (by decide) (by decide)

/-! ### Claim C5 -/

/-- C5: `On()` maps the control node's textual state `"1"` to `true` and
`"0"` to `false`, rejects any other state (for example `"2"` or the
empty string) with an "unknown on value" error, and propagates a read
failure unmodified. -/
theorem c5_on_protocol (i : Instance) (fs : Fs) (s msg : String) :
    (fs.readF (goJoin [i.path, tracingOnPath]) = .ok s → trimSpace s = s →
       ((s = "1" → i.On fs = .ok true)
        ∧ (s = "0" → i.On fs = .ok false)
        ∧ (s ≠ "0" → s ≠ "1" →
            i.On fs = .error ("unknown on value: " ++ s))))
    ∧ (fs.readF (goJoin [i.path, tracingOnPath]) = .error msg →
        i.On fs = .error msg) := by
  constructor
  · intro hread htrim
    have hrf : i.readFile fs tracingOnPath = .ok s := by
      rw [readFile_ok i fs tracingOnPath s hread, htrim]
    rw [on_of_readFile i fs s hrf]
    refine ⟨fun h1 => ?_, fun h0 => ?_, fun hn0 hn1 => ?_⟩
    · subst h1
      rw [if_neg (by decide), if_pos rfl]
    · subst h0
      rw [if_pos rfl]
    · rw [if_neg hn0, if_neg hn1]
  · intro hread
    exact on_of_readFile_err i fs msg (readFile_err i fs tracingOnPath msg hread)

theorem c5_on_protocol_witness :
    (RootInstance rootPath).On (fsConstRead "2")
      = .error ("unknown on value: " ++ "2") :=
  ((c5_on_protocol (RootInstance rootPath) (fsConstRead "2") "2" "").1
    rfl (by decide)).2.2 (by decide) (by decide)

/-! ### Claim C6 -/

/-- C6: structural misuse is rejected before any filesystem access:
child-listing and child-creation on a non-root instance and destroy on
the root instance each fail with a descriptive error, with an empty
trace of filesystem operations. -/
theorem c6_structural_misuse (i : Instance) (fs : Fs) (name : String) :
    (i.isRoot = false →
       i.ChildInstances fs
           = (.error "Cannot get ChildInstances for non-root instance", [])
       ∧ i.NewInstance fs name
           = (.error "must be called on a root instance", []))
    ∧ (i.isRoot = true →
       i.Destroy fs = (.error "cannot destroy the root tracer instance", [])) := by
  constructor
  · intro h
    constructor
    · simp [Instance.ChildInstances, h]
    · simp [Instance.NewInstance, h]
  · intro h
    simp [Instance.Destroy, h]

theorem c6_structural_misuse_witness :
    (Instance.mk false "/tmp/x" "x").ChildInstances fsAllOk
        = (.error "Cannot get ChildInstances for non-root instance", [])
    ∧ (Instance.mk false "/tmp/x" "x").NewInstance fsAllOk "y"
        = (.error "must be called on a root instance", [])
    ∧ DefaultInstance.Destroy fsAllOk
        = (.error "cannot destroy the root tracer instance", []) :=
  ⟨((c6_structural_misuse (Instance.mk false "/tmp/x" "x") fsAllOk "y").1 rfl).1,
   ((c6_structural_misuse (Instance.mk false "/tmp/x" "x") fsAllOk "y").1 rfl).2,
   (c6_structural_misuse DefaultInstance fsAllOk "y").2 rfl⟩

/-! ### Claim C7 -/

/-- C7: when directory creation succeeds, `NewInstance(name)` on a root
instance returns a non-root descriptor named `name` whose path is
`<root path>/instances/<name>`. -/
theorem c7_new_instance_descriptor (i : Instance) (fs : Fs) (name : String)
    (hroot : i.isRoot = true) (hp : i.path ≠ "") (hn : name ≠ "")
    (hclean : hasDoubleSlash
      (i.path ++ "/" ++ "instances" ++ "/" ++ name).data = false)
    (hsucc : fs.mkdir (goJoin [i.path, "instances", name]) = .ok ()) :
    (i.NewInstance fs name).1
      = .ok { isRoot := false
            , path := i.path ++ "/" ++ "instances" ++ "/" ++ name
            , name := name } := by
  rw [← goJoin_three i.path "instances" name hp (by decide) hn hclean]
  simp [Instance.NewInstance, hroot, hsucc]

theorem c7_new_instance_descriptor_witness :
    ((RootInstance rootPath).NewInstance fsAllOk "probe1").1
      = .ok { isRoot := false
            , path := rootPath ++ "/" ++ "instances" ++ "/" ++ "probe1"
            , name := "probe1" } :=
  c7_new_instance_descriptor (RootInstance rootPath) fsAllOk "probe1"
    rfl (by decide) (by decide) (by decide) rfl

/-! ### Claim C8 -/

theorem hasDoubleSlash_prefix :
    ∀ a b : List Char, hasDoubleSlash (a ++ b) = false → hasDoubleSlash a = false := by
  intro a
  induction a with
  | nil => intro b _; rfl
  | cons x t ih =>
    intro b h
    cases t with
    | nil => rfl
    | cons y t2 =>
      simp only [List.cons_append] at h
      simp only [hasDoubleSlash, Bool.or_eq_false_iff] at h ⊢
      exact ⟨h.1, ih b h.2⟩

theorem sappend_ne_empty (a b : String) (hb : b ≠ "") : a ++ b ≠ "" := by
  intro h
  apply hb
  have hd := congrArg String.data h
  rw [sdata_append] at hd
  have : b.data = [] := (List.append_eq_nil.1 hd).2
  exact sext this

/-- C8: every instance returned by `ChildInstances()` or `NewInstance()`
is non-root (with the entry name, and path `<root>/instances/<name>` for
clean names); consequently the root-only operations fail their
structural check on it, while `Destroy` passes that check and proceeds
to remove its directory. -/
theorem c8_child_descriptors (i : Instance) (fs fs2 : Fs) (s : String)
    (hroot : i.isRoot = true) (hp : i.path ≠ "") :
    (∀ entries insts,
       fs.readDir (goJoin [i.path, "instances"]) = .ok entries →
       (i.ChildInstances fs).1 = .ok insts →
       ∀ inst ∈ insts, inst.isRoot = false
         ∧ inst.name ∈ entries
         ∧ (inst.ChildInstances fs2).1
             = .error "Cannot get ChildInstances for non-root instance"
         ∧ (inst.NewInstance fs2 s).1 = .error "must be called on a root instance"
         ∧ inst.Destroy fs2 = (fs2.remove inst.path, [FSOp.removeOp inst.path])
         ∧ (inst.name ≠ "" →
             hasDoubleSlash
               (i.path ++ "/" ++ "instances" ++ "/" ++ inst.name).data = false →
             inst.path = i.path ++ "/" ++ "instances" ++ "/" ++ inst.name))
    ∧ (∀ child, (i.NewInstance fs s).1 = .ok child →
       child.isRoot = false ∧ child.name = s
         ∧ (child.ChildInstances fs2).1
             = .error "Cannot get ChildInstances for non-root instance"
         ∧ (child.NewInstance fs2 s).1 = .error "must be called on a root instance"
         ∧ child.Destroy fs2 = (fs2.remove child.path, [FSOp.removeOp child.path])
         ∧ (s ≠ "" →
             hasDoubleSlash
               (i.path ++ "/" ++ "instances" ++ "/" ++ s).data = false →
             child.path = i.path ++ "/" ++ "instances" ++ "/" ++ s)) := by
  constructor
  · intro entries insts hdir hok inst hmem
    rw [show (i.ChildInstances fs).1
        = .ok (entries.map (fun nm =>
            { isRoot := false, path := goJoin [goJoin [i.path, "instances"], nm]
            , name := nm })) by simp [Instance.ChildInstances, hroot, hdir]] at hok
    have hinsts : insts = entries.map (fun nm =>
        ({ isRoot := false, path := goJoin [goJoin [i.path, "instances"], nm]
         , name := nm } : Instance)) := by
      cases hok
      rfl
    subst hinsts
    obtain ⟨nm, hnm, rfl⟩ := List.mem_map.1 hmem
    refine ⟨rfl, hnm, by simp [Instance.ChildInstances],
      by simp [Instance.NewInstance], by simp [Instance.Destroy], ?_⟩
    intro hne hclean
    show goJoin [goJoin [i.path, "instances"], nm] = _
    have hpre : hasDoubleSlash (i.path ++ "/" ++ "instances").data = false := by
      have := hclean
      rw [show (i.path ++ "/" ++ "instances" ++ "/" ++ nm).data
          = (i.path ++ "/" ++ "instances").data ++ ('/' :: nm.data) by
        simp [sdata_append]] at this
      exact hasDoubleSlash_prefix _ _ this
    rw [goJoin_two i.path "instances" hp (by decide) hpre]
    rw [goJoin_two (i.path ++ "/" ++ "instances") nm
      (sappend_ne_empty _ _ (by decide)) hne hclean]
  · intro child hok
    rcases hmk : fs.mkdir (goJoin [i.path, "instances", s]) with msg | u
    · rw [show (i.NewInstance fs s).1 = .error msg by
        simp [Instance.NewInstance, hroot, hmk]] at hok
      exact absurd hok (by simp)
    · rw [show (i.NewInstance fs s).1
          = .ok (Instance.mk false (goJoin [i.path, "instances", s]) s) by
        simp [Instance.NewInstance, hroot, hmk]] at hok
      have hchild : child = Instance.mk false (goJoin [i.path, "instances", s]) s := by
        cases hok
        rfl
      subst hchild
      refine ⟨rfl, rfl, by simp [Instance.ChildInstances],
        by simp [Instance.NewInstance], by simp [Instance.Destroy], ?_⟩
      intro hne hclean
      show goJoin [i.path, "instances", s] = _
      exact goJoin_three i.path "instances" s hp (by decide) hne hclean

theorem c8_child_descriptors_witness :
    (Instance.mk false (goJoin [rootPath, "instances", "probe1"]) "probe1").isRoot
        = false
    ∧ (Instance.mk false (goJoin [rootPath, "instances", "probe1"]) "probe1").path
        = rootPath ++ "/" ++ "instances" ++ "/" ++ "probe1" :=
  ⟨((c8_child_descriptors DefaultInstance fsAllOk fsAllOk "probe1" rfl
      (by decide)).2
      (Instance.mk false (goJoin [rootPath, "instances", "probe1"]) "probe1")
      rfl).1,
   ((c8_child_descriptors DefaultInstance fsAllOk fsAllOk "probe1" rfl
      (by decide)).2
      (Instance.mk false (goJoin [rootPath, "instances", "probe1"]) "probe1")
      rfl).2.2.2.2.2 (by decide) (by decide)⟩

/-! ### Claim C9 -/

/-- C9: `AddUprobeEvent` opens `uprobe_events` with the create flag set
(in addition to append and write-only) and mode 0644, and writes the
rule line plus a trailing newline; a missing node is therefore created
rather than producing a not-found failure. -/
theorem c9_add_uprobe_creates (i : Instance) (e : UprobeEvent) :
    hasFlag (i.AddUprobeEvent e).flags O_CREATE = true
    ∧ hasFlag (i.AddUprobeEvent e).flags O_APPEND = true
    ∧ hasFlag (i.AddUprobeEvent e).flags O_WRONLY = true
    ∧ (i.AddUprobeEvent e).perm = 0o644
    ∧ (i.AddUprobeEvent e).data = e.Rule ++ "\n"
    ∧ (i.AddUprobeEvent e).path = goJoin [i.path, "uprobe_events"]
    ∧ openFileOutcome false (i.AddUprobeEvent e).flags (i.AddUprobeEvent e).perm
        = .ok (true, 0o644) := by
  refine ⟨?_, ?_, ?_, rfl, rfl, rfl, ?_⟩
  · show hasFlag (O_APPEND ||| O_CREATE ||| O_WRONLY) O_CREATE = true
    decide
  · show hasFlag (O_APPEND ||| O_CREATE ||| O_WRONLY) O_APPEND = true
    decide
  · show hasFlag (O_APPEND ||| O_CREATE ||| O_WRONLY) O_WRONLY = true
    decide
  · show openFileOutcome false (O_APPEND ||| O_CREATE ||| O_WRONLY) 0o644
      = .ok (true, 0o644)
    unfold openFileOutcome
    rw [if_neg (by decide), if_pos (by decide)]

/-! ### Claim C10 -/

/-- C10: control-node reads trim surrounding ASCII whitespace before
interpretation: `On()` accepts `"1"`/`"0"` surrounded by whitespace, and
`CurrentTracer()` returns the node's content with surrounding whitespace
removed. -/
theorem c10_reads_trim (i : Instance) (fs : Fs) (w1 w2 : String)
    (h1 : w1.data.all isASCIISpace = true) (h2 : w2.data.all isASCIISpace = true) :
    (fs.readF (goJoin [i.path, tracingOnPath]) = .ok (w1 ++ "1" ++ w2) →
       i.On fs = .ok true)
    ∧ (fs.readF (goJoin [i.path, tracingOnPath]) = .ok (w1 ++ "0" ++ w2) →
       i.On fs = .ok false)
    ∧ (∀ t, t.data.dropWhile isASCIISpace = t.data →
        t.data.reverse.dropWhile isASCIISpace = t.data.reverse →
        fs.readF (goJoin [i.path, curTracerPath]) = .ok (w1 ++ t ++ w2) →
        i.CurrentTracer fs = .ok t) := by
  refine ⟨fun hread => ?_, fun hread => ?_, fun t ht1 ht2 hread => ?_⟩
  · have hrf : i.readFile fs tracingOnPath = .ok "1" := by
      rw [readFile_ok i fs tracingOnPath _ hread,
        trim_sandwich w1 w2 "1" h1 h2 (by decide) (by decide)]
    rw [on_of_readFile i fs "1" hrf]
    rw [if_neg (by decide), if_pos rfl]
  · have hrf : i.readFile fs tracingOnPath = .ok "0" := by
      rw [readFile_ok i fs tracingOnPath _ hread,
        trim_sandwich w1 w2 "0" h1 h2 (by decide) (by decide)]
    rw [on_of_readFile i fs "0" hrf]
    rw [if_pos rfl]
  · have hrf : i.readFile fs curTracerPath = .ok t := by
      rw [readFile_ok i fs curTracerPath _ hread,
        trim_sandwich w1 w2 t h1 h2 ht1 ht2]
    exact curTracer_of_readFile i fs t hrf

theorem c10_reads_trim_witness :
    (RootInstance rootPath).On (fsConstRead " 1\n") = .ok true :=
  (c10_reads_trim (RootInstance rootPath) (fsConstRead " 1\n") " " "\n"
    (by decide) (by decide)).1 rfl
